import Mathlib

/-!
Verification development for the mqi_communicator supervisor.

The definitions below are a shallow embedding of the Python sources under
src/mqi_communicator: SQLite tables become lists of rows (in rowid order),
SQL statements become list transformations, and the remote probes become
explicit input data (a query either fails — transport or parse error — or
returns the parsed structure).  Timestamps are abstracted to integers.
Python float arithmetic in the GPU scoring code is modelled exactly with
rationals.
-/

namespace MQI

/-! ### Lexicographic string order

SQLite compares TEXT columns bytewise; on UTF-8 this coincides with
codepoint-lexicographic order, modelled here on `String.data` with
characters compared through `Char.toNat`. -/

/-- Strict comparison of two characters by codepoint. -/
def charLtB (a b : Char) : Bool := a.toNat < b.toNat

/-- Strict lexicographic comparison of two character lists. -/
def charListLtB : List Char → List Char → Bool
  | [], [] => false
  | [], _ :: _ => true
  | _ :: _, [] => false
  | a :: as, b :: bs =>
      if charLtB a b then true
      else if charLtB b a then false
      else charListLtB as bs

/-- Strict lexicographic comparison of strings (the order used by
SQLite `ORDER BY pueue_group`). -/
def strLtB (s t : String) : Bool := charListLtB s.data t.data

/-- Minimum of a list of strings under `strLtB`; `none` on the empty
list.  Models `SELECT ... ORDER BY pueue_group LIMIT 1`. -/
def minStr : List String → Option String
  | [] => none
  | s :: rest =>
      match minStr rest with
      | none => some s
      | some t => if strLtB t s then some t else some s

/-! ### Data model

`cases` and `gpu_resources` rows, from the schema in
`DatabaseManager._create_tables` (db_manager.py).  A table is a list of
rows in rowid order; ISO-8601 timestamps are abstracted to integers. -/

/-- A row of the `cases` table. -/
structure CaseRow where
  case_id : Nat
  case_path : String
  status : String
  progress : Int
  priority : Int
  pueue_group : Option String
  pueue_task_id : Option Nat
  submitted_at : Int
  completed_at : Option Int
  status_updated_at : Int
  created_at : Int
deriving Repr, DecidableEq

/-- A row of the `gpu_resources` table (`pueue_group` is the primary key). -/
structure GpuRow where
  pueue_group : String
  status : String
  assigned_case_id : Option Nat
  last_updated : Int
deriving Repr, DecidableEq

/-- The two tables owned by `DatabaseManager`. -/
structure DbState where
  cases : List CaseRow
  gpus : List GpuRow
deriving Repr, DecidableEq

/-- A GPU row counts as available exactly when its status column holds
the string used by the SQL queries. -/
def isAvail (r : GpuRow) : Bool := r.status == "available"

/-- Group names of the rows, in rowid order. -/
def groupsOf (gpus : List GpuRow) : List String := gpus.map (fun r => r.pueue_group)

/-- The primary-key constraint on `gpu_resources`. -/
@[reducible] def nodupGroups (gpus : List GpuRow) : Prop := (groupsOf gpus).Nodup

/-- Group names of the available rows. -/
def availGroups (gpus : List GpuRow) : List String :=
  (gpus.filter isAvail).map (fun r => r.pueue_group)

/-- Number of available rows. -/
def availCount (gpus : List GpuRow) : Nat := gpus.countP isAvail

/-- The subquery of `find_and_lock_any_available_gpu`:
`SELECT pueue_group FROM gpu_resources WHERE status = 'available'
ORDER BY pueue_group LIMIT 1`. -/
def minAvailGroup (gpus : List GpuRow) : Option String := minStr (availGroups gpus)

/-- Effect of the `UPDATE ... SET status = 'assigned', assigned_case_id = ?,
last_updated = CURRENT_TIMESTAMP` on one matching row. -/
def assignRow (now : Int) (cid : Nat) (r : GpuRow) : GpuRow :=
  { r with status := "assigned", assigned_case_id := some cid, last_updated := now }

/-- The `UPDATE` statement of `find_and_lock_any_available_gpu`, applied to
every row whose `pueue_group` equals the subquery result. -/
def sqlAssign (now : Int) (cid : Nat) (g : String) (gpus : List GpuRow) : List GpuRow :=
  gpus.map (fun r => if r.pueue_group == g then assignRow now cid r else r)

/-- `DatabaseManager.find_and_lock_any_available_gpu` (db_manager.py,
lines 486-515).  The whole body runs inside one SQLite transaction
(`with self.conn`).  After the `UPDATE`, if `rowcount > 0` the code runs
`SELECT pueue_group FROM gpu_resources WHERE assigned_case_id = ?` with no
ORDER BY and takes `fetchone()`; a plain table scan returns rows in rowid
order, modelled by `List.find?`. -/
def find_and_lock_any_available_gpu (now : Int) (cid : Nat) (gpus : List GpuRow) :
    Option String × List GpuRow :=
  match minAvailGroup gpus with
  | none => (none, gpus)
  | some g =>
      let gpus2 := sqlAssign now cid g gpus
      if 0 < gpus.countP (fun r => r.pueue_group == g) then
        match gpus2.find? (fun r => r.assigned_case_id == some cid) with
        | some r => (some r.pueue_group, gpus2)
        | none => (none, gpus2)
      else (none, gpus2)

/-- Serial composition of `find_and_lock_any_available_gpu` calls, one
per case id: each call runs to completion before the next starts.  This
covers only executions in which the calls do not overlap.  Concurrent
calls are NOT serializable: unlike every other writer, which goes through
`DatabaseManager.transaction` (db_manager.py, lines 375-385, taking
`self._lock` and `BEGIN IMMEDIATE`), this method uses only
`with self.conn:` on the shared connection and runs its statements on the
one shared `self.cursor`, so the worker threads of
`ParallelCaseProcessor` can interleave inside it — see `raceStep`
below. -/
def runLocks (now : Int) : List Nat → List GpuRow → List (Option String) × List GpuRow
  | [], gpus => ([], gpus)
  | c :: rest, gpus =>
      let step := find_and_lock_any_available_gpu now c gpus
      let next := runLocks now rest step.2
      (step.1 :: next.1, next.2)

/-! ### Two concurrent lock calls on the shared cursor

`find_and_lock_any_available_gpu` is called concurrently by
`ParallelCaseProcessor._process_single_case` worker threads
(parallel_processor.py, lines 286 and 318) on the single shared
`DatabaseManager`.  The method body is two statements on the shared
`self.cursor`: the `UPDATE` and then a read of `self.cursor.rowcount`
followed (when positive) by the `SELECT`.  With no mutex and no immediate
transaction, a thread switch may occur at the statement boundary; the
model below makes that boundary explicit. -/

/-- Thread identifiers for two concurrent lock calls. -/
inductive ThreadId where
  | a
  | b
deriving Repr, DecidableEq

/-- Shared and per-thread state of two concurrent
`find_and_lock_any_available_gpu` calls: `rowcount` is the shared
`self.cursor.rowcount`, overwritten by every statement either thread
executes; `aDone`/`bDone` record whether a thread has executed its
`UPDATE`; a thread's result is `some r` once it has returned `r`. -/
structure RaceState where
  rowcount : Nat
  table : List GpuRow
  aDone : Bool
  bDone : Bool
  aResult : Option (Option String)
  bResult : Option (Option String)
deriving Repr, DecidableEq

/-- First half of the method body: execute the `UPDATE` (with its
`ORDER BY pueue_group LIMIT 1` subquery) on the shared cursor, returning
the new shared `rowcount` and the new table.  A `NULL` subquery result
matches no row, so the `UPDATE` modifies nothing and sets `rowcount`
to 0. -/
def lockStep1 (now : Int) (cid : Nat) (table : List GpuRow) : Nat × List GpuRow :=
  match minAvailGroup table with
  | none => (0, table)
  | some g => (table.countP (fun r => r.pueue_group == g), sqlAssign now cid g table)

/-- Second half of the method body: read the shared `cursor.rowcount`;
if it is positive, run `SELECT ... WHERE assigned_case_id = ?` against
the current table and return the fetched group, else return `None`. -/
def lockStep2 (cid : Nat) (rowcount : Nat) (table : List GpuRow) : Option String :=
  if 0 < rowcount then
    match table.find? (fun r => r.assigned_case_id == some cid) with
    | some r => some r.pueue_group
    | none => none
  else none

/-- One scheduler step: the chosen thread executes its next statement —
its `UPDATE` if it has not run yet, otherwise its rowcount read and
`SELECT`.  Every Python statement boundary is a potential switch point;
exhibiting the violation only needs the boundary between the `UPDATE`
and the `rowcount` read. -/
def raceStep (now : Int) (cid1 cid2 : Nat) (st : RaceState) : ThreadId → RaceState
  | .a =>
      if !st.aDone then
        let s := lockStep1 now cid1 st.table
        { st with rowcount := s.1, table := s.2, aDone := true }
      else if st.aResult.isNone then
        { st with aResult := some (lockStep2 cid1 st.rowcount st.table) }
      else st
  | .b =>
      if !st.bDone then
        let s := lockStep1 now cid2 st.table
        { st with rowcount := s.1, table := s.2, bDone := true }
      else if st.bResult.isNone then
        { st with bResult := some (lockStep2 cid2 st.rowcount st.table) }
      else st

/-- Run two concurrent lock calls under a given interleaving. -/
def runRace (now : Int) (cid1 cid2 : Nat) (gpus : List GpuRow)
    (sched : List ThreadId) : RaceState :=
  sched.foldl (raceStep now cid1 cid2) ⟨0, gpus, false, false, none, none⟩

/-- A table with a single available GPU row (M = 1). -/
def c1raceTable : List GpuRow := [⟨"gpu_a", "available", none, 0⟩]

/-! ### DatabaseManager update operations (db_manager.py) -/

/-- `DatabaseManager.update_case_status`: `UPDATE cases SET status = ?,
progress = ?, status_updated_at = ? WHERE case_id = ?`. -/
def update_case_status (now : Int) (cid : Nat) (status : String) (progress : Int)
    (cases : List CaseRow) : List CaseRow :=
  cases.map (fun c =>
    if c.case_id == cid then
      { c with status := status, progress := progress, status_updated_at := now }
    else c)

/-- `DatabaseManager.update_case_completion` (lines 592-608): `UPDATE cases
SET status = ?, progress = 100, completed_at = ?, status_updated_at = ?
WHERE case_id = ?`, where both timestamps receive the same
`completion_time`. -/
def update_case_completion (now : Int) (cid : Nat) (status : String)
    (cases : List CaseRow) : List CaseRow :=
  cases.map (fun c =>
    if c.case_id == cid then
      { c with status := status, progress := 100,
               completed_at := some now, status_updated_at := now }
    else c)

/-- `DatabaseManager.update_case_pueue_task_id`: `UPDATE cases SET
pueue_task_id = ? WHERE case_id = ?`. -/
def update_case_pueue_task_id (cid : Nat) (tid : Nat)
    (cases : List CaseRow) : List CaseRow :=
  cases.map (fun c =>
    if c.case_id == cid then { c with pueue_task_id := some tid } else c)

/-- `DatabaseManager.release_gpu_resource`: `UPDATE gpu_resources SET
status = 'available', assigned_case_id = NULL, last_updated =
CURRENT_TIMESTAMP WHERE assigned_case_id = ?`. -/
def release_gpu_resource (now : Int) (cid : Nat)
    (gpus : List GpuRow) : List GpuRow :=
  gpus.map (fun r =>
    if r.assigned_case_id == some cid then
      { r with status := "available", assigned_case_id := none, last_updated := now }
    else r)

/-- `DatabaseManager.update_gpu_status` (lines 665-680): `UPDATE
gpu_resources SET status = ?, assigned_case_id = ?, last_updated =
CURRENT_TIMESTAMP WHERE pueue_group = ?`. -/
def update_gpu_status (now : Int) (g : String) (status : String)
    (cid : Option Nat) (gpus : List GpuRow) : List GpuRow :=
  gpus.map (fun r =>
    if r.pueue_group == g then
      { r with status := status, assigned_case_id := cid, last_updated := now }
    else r)

/-! ### Remote queries (workflow_engine.py / remote_executor.py)

Each SSH probe either fails in transport or parsing
(`subprocess.TimeoutExpired`, `subprocess.CalledProcessError`,
`json.JSONDecodeError`, `KeyError`) or yields the parsed `tasks`
dictionary.  The JSON dictionary is modelled as a list of key-value pairs
in document order. -/

/-- Parsed entry of the pueue `tasks` JSON object: the values consulted by
the code are `status`, `result` and `label`. -/
structure PueueTaskInfo where
  status : Option String
  result : Option String
  label : Option String
deriving Repr, DecidableEq

/-- Outcome of running `ssh ... pueue status --json` and parsing it. -/
inductive StatusQuery where
  | failure
  | ok (tasks : List (String × PueueTaskInfo))
deriving Repr, DecidableEq

/-- `WorkflowEngine.find_task_by_label` (workflow_engine.py, lines
380-426): scan the tasks dictionary for a matching label and return
`("found", task id)`; on no match return `("not_found", none)`; the
`except` clause for transport and parse failures also returns
`("not_found", none)`. -/
def find_task_by_label (q : StatusQuery) (label : String) : String × Option Nat :=
  match q with
  | .failure => ("not_found", none)
  | .ok tasks =>
      match tasks.find? (fun t => t.2.label == some label) with
      | some t => ("found", some t.1.toNat!)
      | none => ("not_found", none)

/-- `RemoteExecutor.get_workflow_status` (remote_executor.py, lines
742-794). -/
def get_workflow_status (tid : Nat) (q : StatusQuery) : String :=
  match q with
  | .failure => "unreachable"
  | .ok tasks =>
      match tasks.find? (fun t => t.1 == toString tid) with
      | none => "not_found"
      | some t =>
          if t.2.status == some "Done" then
            if t.2.result == some "success" then "success" else "failure"
          else if t.2.status == some "Failed" || t.2.status == some "Killing" then
            "failure"
          else "running"

/-! ### Supervisor loop phases (main_loop_logic.py) -/

/-- Body of the loop in `recover_stuck_submitting_cases` (main_loop_logic.py,
lines 31-69) for one stuck case: look the case up by its recovery label
and either adopt the found task, fail the case and release its GPU, or (on
the literal string "unreachable", a branch `find_task_by_label` can never
produce) do nothing. -/
def recover_stuck_case (now : Int) (q : StatusQuery) (st : DbState) (c : CaseRow) :
    DbState :=
  let label := "mqic_case_" ++ toString c.case_id
  let r := find_task_by_label q label
  if r.1 == "found" then
    match r.2 with
    | some tid =>
        { st with cases := (update_case_status now c.case_id "running" 30
            (update_case_pueue_task_id c.case_id tid st.cases)) }
    | none =>
        { cases := update_case_completion now c.case_id "failed" st.cases,
          gpus := release_gpu_resource now c.case_id st.gpus }
  else if r.1 == "not_found" then
    { cases := update_case_completion now c.case_id "failed" st.cases,
      gpus := release_gpu_resource now c.case_id st.gpus }
  else st

/-- The result strings of `WorkflowEngine.get_workflow_status`, for use as
a poll stub in the supervisor-loop model. -/
inductive RemoteStatus where
  | success
  | failure
  | running
  | not_found
  | unreachable
deriving Repr, DecidableEq

def RemoteStatus.str : RemoteStatus → String
  | .success => "success"
  | .failure => "failure"
  | .running => "running"
  | .not_found => "not_found"
  | .unreachable => "unreachable"

/-- Body of the loop in `manage_running_cases` (main_loop_logic.py, lines
90-181) for one running case `c`.  `kill` stubs
`workflow_engine.kill_workflow` and `poll` stubs
`workflow_engine.get_workflow_status`. -/
def manage_running_case (now : Int) (timeout : Int) (kill : Nat → Bool)
    (poll : Nat → RemoteStatus) (st : DbState) (c : CaseRow) : DbState :=
  match c.pueue_task_id with
  | none =>
      { cases := update_case_completion now c.case_id "failed" st.cases,
        gpus := release_gpu_resource now c.case_id st.gpus }
  | some tid =>
      if timeout < now - c.status_updated_at then
        let killOk := kill tid
        let cases1 := update_case_completion now c.case_id "failed" st.cases
        if killOk then
          { cases := cases1, gpus := release_gpu_resource now c.case_id st.gpus }
        else
          match c.pueue_group with
          | some g =>
              { cases := cases1,
                gpus := update_gpu_status now g "zombie" (some c.case_id) st.gpus }
          | none => { st with cases := cases1 }
      else
        match poll tid with
        | .success =>
            { cases := update_case_completion now c.case_id "completed" st.cases,
              gpus := release_gpu_resource now c.case_id st.gpus }
        | .failure =>
            { cases := update_case_completion now c.case_id "failed" st.cases,
              gpus := release_gpu_resource now c.case_id st.gpus }
        | .not_found =>
            { cases := update_case_completion now c.case_id "failed" st.cases,
              gpus := release_gpu_resource now c.case_id st.gpus }
        | .running => st
        | .unreachable => st

/-! ### Workflow engine (workflow_engine.py) -/

/-- One entry of the configured `main_workflow` list; only the keys read
by `_determine_starting_step` and `_execute_workflow_step` are kept. -/
structure WorkflowStep where
  name : String
  on_success_status : Option String
  on_failure_status : Option String
deriving Repr, DecidableEq

/-- Recursion of `WorkflowEngine._determine_starting_step`
(workflow_engine.py, lines 169-195).  The Python dictionary
`status_to_step`, whose assignments overwrite, is modelled as an
association list with the newest binding in front. -/
def dssGo (current : String) (wfLen : Nat) :
    List WorkflowStep → Nat → List (Option String × Nat) → Nat
  | [], _, dict =>
      match dict.find? (fun p => p.1 == some current) with
      | some p => p.2
      | none => 0
  | step :: rest, idx, dict =>
      if step.on_success_status == some current then
        min (idx + 1) wfLen
      else
        dssGo current wfLen rest (idx + 1) ((step.on_failure_status, idx) :: dict)

/-- `WorkflowEngine._determine_starting_step`. -/
def determine_starting_step (wf : List WorkflowStep) (current : String) : Nat :=
  dssGo current wf.length wf 0 []

/-- First (lowest) index in `l`, counting from `i`, whose element
satisfies `p`. -/
def firstIdxFrom (p : WorkflowStep → Bool) : List WorkflowStep → Nat → Option Nat
  | [], _ => none
  | s :: rest, i => if p s then some i else firstIdxFrom p rest (i + 1)

/-- Last (highest) index in `l`, counting from `i`, whose element
satisfies `p`. -/
def lastIdxFrom (p : WorkflowStep → Bool) : List WorkflowStep → Nat → Option Nat
  | [], _ => none
  | s :: rest, i =>
      match lastIdxFrom p rest (i + 1) with
      | some j => some j
      | none => if p s then some i else none

/-- Lowest step index whose `on_success_status` matches `current`. -/
def firstSuccIdx (wf : List WorkflowStep) (current : String) : Option Nat :=
  firstIdxFrom (fun s => s.on_success_status == some current) wf 0

/-- Highest step index whose `on_success_status` matches `current`. -/
def lastSuccIdx (wf : List WorkflowStep) (current : String) : Option Nat :=
  lastIdxFrom (fun s => s.on_success_status == some current) wf 0

/-- Highest step index whose `on_failure_status` matches `current`. -/
def lastFailIdx (wf : List WorkflowStep) (current : String) : Option Nat :=
  lastIdxFrom (fun s => s.on_failure_status == some current) wf 0

/-- Modelled from the spec: the resumption rule as the specification
words it — the HIGHEST step index whose `on_success_status` matches the
current status starts the workflow at `index + 1`; a matching
`on_failure_status` restarts at that step; otherwise start at 0.  Kept
separate from `determine_starting_step`, which is translated from the
code, so the two can be compared. -/
def spec_starting_step (wf : List WorkflowStep) (current : String) : Nat :=
  match lastSuccIdx wf current with
  | some k => k + 1
  | none =>
      match lastFailIdx wf current with
      | some j => j
      | none => 0

/-! ### Step retry loop (workflow_engine.py, lines 254-326) -/

/-- The five categories of `error_categorization.ErrorCategory`. -/
inductive ErrorCategory where
  | network
  | system
  | configuration
  | application
  | unknown
deriving Repr, DecidableEq

/-- The `.value` string of each enum member. -/
def ErrorCategory.value : ErrorCategory → String
  | .network => "network"
  | .system => "system"
  | .configuration => "configuration"
  | .application => "application"
  | .unknown => "unknown"

/-- `ErrorCategory.is_retryable` (error_categorization.py, lines 26-35):
network and system are retryable. -/
def ErrorCategory.is_retryable : ErrorCategory → Bool
  | .network => true
  | .system => true
  | _ => false

/-- `categorize_error` (error_categorization.py, lines 256-271) returns
the PAIR `(category, is_retryable)`.  The classification of a concrete
exception into its category is abstracted: the model receives the
category the classifier would produce. -/
def categorize_error (cat : ErrorCategory) : ErrorCategory × Bool :=
  (cat, cat.is_retryable)

/-- Python `==` between the tuple returned by `categorize_error` and a
string drawn from the `retry.on_error` configuration list: a tuple never
equals a string, so this is constantly `false`. -/
def pyTupleEqStr (_p : ErrorCategory × Bool) (_s : String) : Bool := false

/-- Python `in`: membership of the `(category, is_retryable)` tuple in
the configured list of kind strings. -/
def pyTupleMem (p : ErrorCategory × Bool) (l : List String) : Bool :=
  l.any (fun s => pyTupleEqStr p s)

/-- The `retry` sub-dictionary of a step configuration:
`count` (`max_retries`), `delay` seconds, and the `on_error` list of
retryable kind strings. -/
structure RetryConfig where
  count : Nat
  delay : Nat
  on_error : List String
deriving Repr, DecidableEq

/-- Outcome of one executor invocation inside
`_execute_workflow_step`: success, a caught
`LocalExecutionError`/`RemoteExecutionError` whose classifier category is
`cat`, or any other (unexpected) exception. -/
inductive AttemptOutcome where
  | ok
  | execError (cat : ErrorCategory)
  | unexpected (cat : ErrorCategory)
deriving Repr, DecidableEq

/-- Observable side effects of the retry loop. -/
inductive StepEvent where
  | sleep (secs : Nat)
  | regenRunId
deriving Repr, DecidableEq

/-- The `for attempt in range(max_retries + 1)` loop of
`_execute_workflow_step`.  Fuel counts the remaining loop iterations;
`outcomes n` is what the executor does on attempt number `n`.  Returns
(step succeeded, attempts made, emitted sleep/run_id events). -/
def execStepGo (cfg : RetryConfig) (outcomes : Nat → AttemptOutcome) :
    Nat → Nat → Bool × Nat × List StepEvent
  | 0, a => (false, a, [])
  | fuel + 1, a =>
      match outcomes a with
      | .ok => (true, a + 1, [])
      | .execError cat =>
          let ec := categorize_error cat
          let shouldRetry :=
            decide (a < cfg.count) && (cfg.on_error.isEmpty || pyTupleMem ec cfg.on_error)
          if shouldRetry then
            let r := execStepGo cfg outcomes fuel (a + 1)
            (r.1, r.2.1, StepEvent.sleep cfg.delay :: StepEvent.regenRunId :: r.2.2)
          else (false, a + 1, [])
      | .unexpected _ => (false, a + 1, [])

/-- `WorkflowEngine._execute_workflow_step` retry behaviour: the loop runs
at most `max_retries + 1` iterations starting at attempt 0. -/
def execute_workflow_step (cfg : RetryConfig) (outcomes : Nat → AttemptOutcome) :
    Bool × Nat × List StepEvent :=
  execStepGo cfg outcomes (cfg.count + 1) 0

/-! ### Dynamic GPU manager (dynamic_gpu_manager.py) -/

/-- Per-group entry of the pueue `groups` JSON object, as read by
`get_gpu_resource_utilization`. -/
structure PueueGroupStats where
  running : Nat
  queued : Nat
deriving Repr, DecidableEq

/-- `total_load` as computed by `get_gpu_resource_utilization`. -/
def PueueGroupStats.total_load (s : PueueGroupStats) : Nat := s.running + s.queued

/-- One GPU line parsed from `nvidia-smi` by
`get_gpu_hardware_utilization`. -/
structure HwStats where
  utilization_gpu : Int
  memory_used : Int
  memory_total : Int
deriving Repr, DecidableEq

/-- `memory_percent = memory_used / memory_total * 100 if memory_total > 0
else 0`; Python float arithmetic modelled exactly in ℚ. -/
def HwStats.memory_percent (h : HwStats) : ℚ :=
  if 0 < h.memory_total then (h.memory_used : ℚ) / (h.memory_total : ℚ) * 100 else 0

/-- `is_busy = utilization_gpu > 5 or memory_percent > 10`. -/
def HwStats.is_busy (h : HwStats) : Bool :=
  5 < h.utilization_gpu || decide ((10 : ℚ) < h.memory_percent)

/-- Dictionary lookups used by `get_optimal_gpu_assignment`, modelled on
association lists in document order. -/
def hwFind (hw : List (Nat × HwStats)) (i : Nat) : Option HwStats :=
  (hw.find? (fun p => p.1 == i)).map (fun p => p.2)

/-- `group_to_indices.get(group_name, [])`. -/
def indicesOf (g2i : List (String × List Nat)) (g : String) : List Nat :=
  ((g2i.find? (fun p => p.1 == g)).map (fun p => p.2)).getD []

/-- `db_manager.get_gpu_resource(group_name)`: first row with the group
name. -/
def dbFind (db : List GpuRow) (g : String) : Option GpuRow :=
  db.find? (fun r => r.pueue_group == g)

/-- The three `continue` filters of `get_optimal_gpu_assignment` (lines
420-470): database row exists and is available, no running pueue jobs, and
no hardware-busy mapped index. -/
def gpuQualifies (db : List GpuRow) (hw : List (Nat × HwStats))
    (g2i : List (String × List Nat)) (g : String) (stats : PueueGroupStats) : Bool :=
  (match dbFind db g with
   | some r => r.status == "available"
   | none => false)
  && stats.running == 0
  && !((indicesOf g2i g).any (fun i =>
        match hwFind hw i with
        | some h => h.is_busy
        | none => false))

/-- The composite score (lines 472-481): `total_load` plus, for each
mapped index present in the hardware dictionary,
`utilization_gpu / 100.0 + memory_percent / 100.0`. -/
def gpuScore (hw : List (Nat × HwStats)) (g2i : List (String × List Nat))
    (g : String) (stats : PueueGroupStats) : ℚ :=
  (stats.total_load : ℚ) +
    ((indicesOf g2i g).map (fun i =>
      match hwFind hw i with
      | some h => (h.utilization_gpu : ℚ) / 100 + h.memory_percent / 100
      | none => 0)).sum

/-- The `available_groups` candidate list, built in the iteration order of
the pueue `groups` dictionary. -/
def gpuCandidates (pueue : List (String × PueueGroupStats)) (hw : List (Nat × HwStats))
    (g2i : List (String × List Nat)) (db : List GpuRow) : List (String × ℚ) :=
  pueue.filterMap (fun p =>
    if gpuQualifies db hw g2i p.1 p.2 then some (p.1, gpuScore hw g2i p.1 p.2) else none)

/-- `available_groups.sort(key=lambda x: x[1])` followed by
`available_groups[0]`: Python sort is stable, so the result is the
earliest entry with minimal score. -/
def argminStable : List (String × ℚ) → Option (String × ℚ)
  | [] => none
  | p :: rest =>
      match argminStable rest with
      | none => some p
      | some q => if q.2 < p.2 then some q else some p

/-- `DynamicGpuManager.get_optimal_gpu_assignment` (dynamic_gpu_manager.py,
lines 399-526).  The three remote probes and the group-to-index mapping
are inputs; the `except` wrapper that returns `None` when a probe raises
is outside this model because the probes are given as data. -/
def get_optimal_gpu_assignment (pueue : List (String × PueueGroupStats))
    (hw : List (Nat × HwStats)) (g2i : List (String × List Nat))
    (db : List GpuRow) : Option String :=
  (argminStable (gpuCandidates pueue hw g2i db)).map (fun p => p.1)

/-! ### Parallel processor metrics (parallel_processor.py) -/

/-- The counters of `ProcessingMetrics` consulted by
`get_success_rate`. -/
structure ProcessingMetrics where
  total_cases_processed : Nat
  successful_submissions : Nat
  failed_submissions : Nat
deriving Repr, DecidableEq

/-- The zero-initialised dataclass. -/
def ProcessingMetrics.init : ProcessingMetrics := ⟨0, 0, 0⟩

/-- `ProcessingMetrics.get_success_rate` (parallel_processor.py, lines
40-44). -/
def get_success_rate (m : ProcessingMetrics) : ℚ :=
  if m.total_cases_processed = 0 then 0
  else ((m.successful_submissions : ℚ) / (m.total_cases_processed : ℚ)) * 100

/-- One batch of `process_case_batch` outcomes (each completed future is
`True` or `False`): every future increments either
`successful_submissions` or `failed_submissions` together with
`processed_count`, and `total_cases_processed` grows by `processed_count`
at the end of the batch. -/
def recordBatch (m : ProcessingMetrics) (outcomes : List Bool) : ProcessingMetrics :=
  { total_cases_processed := m.total_cases_processed + outcomes.length,
    successful_submissions := m.successful_submissions + outcomes.countP (fun b => b),
    failed_submissions := m.failed_submissions + outcomes.countP (fun b => !b) }

/-! ### Concrete instances used to evaluate the models -/

/-- Two available GPU rows, deliberately listed in reverse lexicographic
order. -/
def lockTableW : List GpuRow :=
  [⟨"gpu_b", "available", none, 0⟩, ⟨"gpu_a", "available", none, 0⟩]

/-- A table in which case 7 already holds the earlier (rowid-order) row
while a lexicographically smaller group is still available. -/
def lockTableCx : List GpuRow :=
  [⟨"gpu_b", "assigned", some 7, 0⟩, ⟨"gpu_a", "available", none, 0⟩]

/-- A running case with its historical fields set. -/
def caseRowW : CaseRow :=
  ⟨7, "/data/case7", "running", 50, 2, some "gpu_a", some 301, 0, none, 0, 0⟩

def casesW : List CaseRow := [caseRowW]

/-- The row `caseRowW` after `update_case_completion 9 7 "completed"`. -/
def caseC5out : CaseRow :=
  ⟨7, "/data/case7", "completed", 100, 2, some "gpu_a", some 301, 0, some 9, 9, 0⟩

/-- A case stuck in `submitting`, before the database learned its remote
task id, with its GPU still assigned. -/
def c3case : CaseRow :=
  ⟨7, "/data/case7", "submitting", 10, 2, some "gpu_0", none, 0, none, 0, 0⟩

def c3state : DbState := ⟨[c3case], [⟨"gpu_0", "assigned", some 7, 0⟩]⟩

/-- A running case holding remote task 42 on group gpu_1. -/
def c4case : CaseRow :=
  ⟨9, "/data/case9", "running", 60, 2, some "gpu_1", some 42, 0, none, 0, 0⟩

def c4state : DbState := ⟨[c4case], [⟨"gpu_1", "assigned", some 9, 0⟩]⟩

/-- A workflow in which two steps share the same on-success status. -/
def wfC6 : List WorkflowStep :=
  [⟨"s0", some "S", some "F"⟩, ⟨"s1", some "S", some "G"⟩]

/-- A retry policy with one retry allowed and `network` configured as a
retryable kind. -/
def c7cfg : RetryConfig := ⟨1, 60, ["network"]⟩

def c8tasks : List (String × PueueTaskInfo) := [("5", ⟨some "Queued", none, none⟩)]

/-- A pueue groups listing in which gpu_2 precedes gpu_1. -/
def c9pueue : List (String × PueueGroupStats) := [("gpu_2", ⟨0, 0⟩), ("gpu_1", ⟨0, 0⟩)]

def c9g2i : List (String × List Nat) := [("gpu_2", [2]), ("gpu_1", [1])]

def c9db : List GpuRow :=
  [⟨"gpu_2", "available", none, 0⟩, ⟨"gpu_1", "available", none, 0⟩]

/-- Same store, but gpu_2 is busy, leaving only gpu_1 qualified. -/
def c9dbW : List GpuRow :=
  [⟨"gpu_2", "busy", none, 0⟩, ⟨"gpu_1", "available", none, 0⟩]

/-! ### Order lemmas -/

theorem charListLtB_irrefl : ∀ l : List Char, charListLtB l l = false := by
  intro l
  induction l with
  | nil => rfl
  | cons a as ih =>
      simp [charListLtB, charLtB, ih]

/-- Co-transitivity of the strict lexicographic order: if `x < s` then for
any `t` either `x < t` or `t < s`. -/
theorem charListLtB_cotrans :
    ∀ x s t : List Char, charListLtB x s = true →
      charListLtB x t = true ∨ charListLtB t s = true := by
  intro x
  induction x with
  | nil =>
      intro s t hxs
      cases s with
      | nil => simp [charListLtB] at hxs
      | cons b bs =>
          cases t with
          | nil => right; simp [charListLtB]
          | cons c cs => left; simp [charListLtB]
  | cons a as ih =>
      intro s t hxs
      cases s with
      | nil => simp [charListLtB] at hxs
      | cons b bs =>
          cases t with
          | nil => right; simp [charListLtB]
          | cons c cs =>
              simp only [charListLtB, charLtB] at hxs ⊢
              by_cases hab : a.toNat < b.toNat
              · by_cases hac : a.toNat < c.toNat
                · left; simp [hac]
                · by_cases hca : c.toNat < a.toNat
                  · right
                    have hcb : c.toNat < b.toNat := Nat.lt_trans hca hab
                    simp [hcb]
                  · -- a and c have equal codepoints
                    have heq : a.toNat = c.toNat :=
                      Nat.le_antisymm (Nat.le_of_not_lt hca) (Nat.le_of_not_lt hac)
                    right
                    have hcb : c.toNat < b.toNat := heq ▸ hab
                    simp [hcb]
              · by_cases hba : b.toNat < a.toNat
                · simp [hab, hba] at hxs
                · -- a and b have equal codepoints, recursive case
                  simp only [hab, hba, if_false] at hxs
                  by_cases hac : a.toNat < c.toNat
                  · left; simp [hac]
                  · by_cases hca : c.toNat < a.toNat
                    · right
                      have hab' : a.toNat = b.toNat :=
                        Nat.le_antisymm (Nat.le_of_not_lt hba) (Nat.le_of_not_lt hab)
                      have hcb : c.toNat < b.toNat := hab' ▸ hca
                      simp [hcb]
                    · have hrec := ih bs cs hxs
                      rcases hrec with h | h
                      · left; simp [hac, hca, h]
                      · right
                        have hca' : ¬ c.toNat < b.toNat := by
                          intro hlt
                          have hab' : b.toNat = a.toNat :=
                            Nat.le_antisymm (Nat.le_of_not_lt hab) (Nat.le_of_not_lt hba)
                          exact hca (hab' ▸ hlt)
                        have hbc : ¬ b.toNat < c.toNat := by
                          intro hlt
                          have hab' : a.toNat = b.toNat :=
                            Nat.le_antisymm (Nat.le_of_not_lt hba) (Nat.le_of_not_lt hab)
                          exact hac (hab' ▸ hlt)
                        simp [hca', hbc, h]

theorem charListLtB_asymm :
    ∀ a b : List Char, charListLtB a b = true → charListLtB b a = false := by
  intro a
  induction a with
  | nil =>
      intro b h
      cases b with
      | nil => simp [charListLtB] at h
      | cons c cs => simp [charListLtB]
  | cons x xs ih =>
      intro b h
      cases b with
      | nil => simp [charListLtB] at h
      | cons y ys =>
          simp only [charListLtB, charLtB] at h ⊢
          by_cases hxy : x.toNat < y.toNat
          · have hyx : ¬ y.toNat < x.toNat := Nat.lt_asymm hxy
            simp [hyx, hxy]
          · by_cases hyx : y.toNat < x.toNat
            · simp [hxy, hyx] at h
            · simp only [hxy, hyx, if_false] at h
              simp [hxy, hyx, ih ys h]

theorem strLtB_irrefl (s : String) : strLtB s s = false :=
  charListLtB_irrefl s.data

theorem strLtB_asymm (s t : String) (h : strLtB s t = true) : strLtB t s = false :=
  charListLtB_asymm s.data t.data h

theorem strLtB_cotrans (x s t : String) (h : strLtB x s = true) :
    strLtB x t = true ∨ strLtB t s = true :=
  charListLtB_cotrans x.data s.data t.data h

theorem minStr_eq_none : ∀ l : List String, minStr l = none ↔ l = [] := by
  intro l
  cases l with
  | nil => simp [minStr]
  | cons s rest =>
      simp only [minStr]
      cases minStr rest with
      | none => simp
      | some t =>
          by_cases hts : strLtB t s = true <;> simp [hts]

/-- Full specification of `minStr`: on a nonempty list it returns a member
below which no other member lies. -/
theorem minStr_spec : ∀ l : List String, ∀ m : String, minStr l = some m →
    m ∈ l ∧ ∀ x ∈ l, strLtB x m = false := by
  intro l
  induction l with
  | nil => intro m h; simp [minStr] at h
  | cons s rest ih =>
      intro m h
      simp only [minStr] at h
      cases hrest : minStr rest with
      | none =>
          rw [hrest] at h
          have hse : s = m := by simpa using h
          have hre : rest = [] := (minStr_eq_none rest).mp hrest
          subst hse
          subst hre
          refine ⟨List.mem_singleton_self s, ?_⟩
          intro x hx
          have hxs : x = s := by simpa using hx
          subst hxs
          exact strLtB_irrefl x
      | some t =>
          rw [hrest] at h
          obtain ⟨hmem, hmin⟩ := ih t hrest
          by_cases hts : strLtB t s = true
          · have hte : t = m := by simpa [hts] using h
            subst hte
            refine ⟨List.mem_cons_of_mem s hmem, ?_⟩
            intro x hx
            rcases List.mem_cons.mp hx with hxs | hxr
            · subst hxs
              exact strLtB_asymm t x hts
            · exact hmin x hxr
          · have hse : s = m := by simpa [hts] using h
            subst hse
            refine ⟨List.mem_cons_self s rest, ?_⟩
            intro x hx
            rcases List.mem_cons.mp hx with hxs | hxr
            · subst hxs; exact strLtB_irrefl x
            · cases hxm : strLtB x s with
              | false => rfl
              | true =>
                  rcases strLtB_cotrans x s t hxm with hh | hh
                  · rw [hmin x hxr] at hh; exact absurd hh (by simp)
                  · simp [hts] at hh

/-! ### Lemmas on the atomic GPU lock -/

theorem mem_availGroups {g : String} {gpus : List GpuRow} :
    g ∈ availGroups gpus ↔ ∃ r ∈ gpus, isAvail r = true ∧ r.pueue_group = g := by
  simp only [availGroups, List.mem_map, List.mem_filter]
  constructor
  · rintro ⟨r, ⟨hr, ha⟩, hg⟩
    exact ⟨r, hr, ha, hg⟩
  · rintro ⟨r, hr, ha, hg⟩
    exact ⟨r, ⟨hr, ha⟩, hg⟩

theorem availCount_eq_length (gpus : List GpuRow) :
    availCount gpus = (availGroups gpus).length := by
  simp [availCount, availGroups, List.countP_eq_length_filter]

theorem lock_none {now : Int} {cid : Nat} {gpus : List GpuRow}
    (h : minAvailGroup gpus = none) :
    find_and_lock_any_available_gpu now cid gpus = (none, gpus) := by
  simp [find_and_lock_any_available_gpu, h]

theorem groupsOf_sqlAssign (now : Int) (cid : Nat) (g : String) (gpus : List GpuRow) :
    groupsOf (sqlAssign now cid g gpus) = groupsOf gpus := by
  induction gpus with
  | nil => rfl
  | cons r rest ih =>
      simp only [sqlAssign, groupsOf, List.map_cons] at ih ⊢
      by_cases hg : (r.pueue_group == g) = true
      · rw [if_pos hg, ih]
        rfl
      · rw [if_neg hg, ih]

theorem isAvail_assignRow (now : Int) (cid : Nat) (r : GpuRow) :
    isAvail (assignRow now cid r) = false := rfl

theorem mem_sqlAssign_of_avail {now : Int} {cid : Nat} {g : String} {gpus : List GpuRow}
    {r2 : GpuRow} (hmem : r2 ∈ sqlAssign now cid g gpus) (hav : isAvail r2 = true) :
    r2 ∈ gpus ∧ r2.pueue_group ≠ g := by
  simp only [sqlAssign, List.mem_map] at hmem
  obtain ⟨r, hr, heq⟩ := hmem
  by_cases hg : r.pueue_group == g
  · rw [if_pos hg] at heq
    rw [← heq] at hav
    rw [isAvail_assignRow] at hav
    exact absurd hav (by simp)
  · rw [if_neg hg] at heq
    subst heq
    exact ⟨hr, by simpa using hg⟩

theorem fresh_sqlAssign {now : Int} {cid d : Nat} {g : String} {gpus : List GpuRow}
    (hfresh : ∀ r ∈ gpus, r.assigned_case_id ≠ some d) (hne : d ≠ cid) :
    ∀ r2 ∈ sqlAssign now cid g gpus, r2.assigned_case_id ≠ some d := by
  intro r2 hmem
  simp only [sqlAssign, List.mem_map] at hmem
  obtain ⟨r, hr, heq⟩ := hmem
  by_cases hg : r.pueue_group == g
  · rw [if_pos hg] at heq
    rw [← heq]
    simp [assignRow]
    intro hcontra
    exact hne hcontra.symm
  · rw [if_neg hg] at heq
    subst heq
    exact hfresh r hr

theorem sqlAssign_id_of_not_mem {now : Int} {cid : Nat} {g : String}
    {gpus : List GpuRow} (h : g ∉ groupsOf gpus) :
    sqlAssign now cid g gpus = gpus := by
  induction gpus with
  | nil => rfl
  | cons r rest ih =>
      simp only [groupsOf, List.map_cons, List.mem_cons, not_or] at h
      obtain ⟨h1, h2⟩ := h
      simp only [sqlAssign, List.map_cons]
      have hg : (r.pueue_group == g) = false := by
        simp
        intro hcontra
        exact h1 hcontra.symm
      rw [hg]
      simp only [Bool.false_eq_true, if_false]
      have := ih (by simpa [groupsOf] using h2)
      simpa [sqlAssign] using this

theorem availCount_sqlAssign {now : Int} {cid : Nat} {g : String} {gpus : List GpuRow}
    (hnd : nodupGroups gpus)
    (hex : ∃ r ∈ gpus, isAvail r = true ∧ r.pueue_group = g) :
    availCount (sqlAssign now cid g gpus) + 1 = availCount gpus := by
  induction gpus with
  | nil => simp at hex
  | cons r rest ih =>
      simp only [nodupGroups, groupsOf, List.map_cons, List.nodup_cons] at hnd
      obtain ⟨hnotin, hndrest⟩ := hnd
      by_cases hg : r.pueue_group = g
      · -- the head is the unique row of group g, and it is available
        have hav : isAvail r = true := by
          obtain ⟨r0, hr0, hav0, hg0⟩ := hex
          rcases List.mem_cons.mp hr0 with h | h
          · subst h; exact hav0
          · exfalso
            apply hnotin
            rw [hg, ← hg0]
            exact List.mem_map_of_mem (fun x => x.pueue_group) h
        have hrest : sqlAssign now cid g rest = rest := by
          apply sqlAssign_id_of_not_mem
          rw [← hg]
          simpa [groupsOf] using hnotin
        have hsplit : sqlAssign now cid g (r :: rest) = assignRow now cid r :: rest := by
          simp only [sqlAssign, List.map_cons]
          rw [if_pos (by simpa using hg)]
          rw [show (List.map (fun x =>
              if x.pueue_group == g then assignRow now cid x else x) rest) = rest from hrest]
        rw [hsplit]
        simp [availCount, List.countP_cons, isAvail_assignRow, hav]
      · -- the witness row lies in the tail
        have hex2 : ∃ r0 ∈ rest, isAvail r0 = true ∧ r0.pueue_group = g := by
          obtain ⟨r0, hr0, hav0, hg0⟩ := hex
          rcases List.mem_cons.mp hr0 with h | h
          · exact absurd (h ▸ hg0) hg
          · exact ⟨r0, h, hav0, hg0⟩
        have := ih hndrest hex2
        simp only [sqlAssign, List.map_cons]
        rw [if_neg (by simpa using hg)]
        simp only [availCount, sqlAssign, List.countP_cons] at this ⊢
        omega

theorem lock_some {now : Int} {cid : Nat} {g : String} {gpus : List GpuRow}
    (hfresh : ∀ r ∈ gpus, r.assigned_case_id ≠ some cid)
    (hmin : minAvailGroup gpus = some g) :
    (find_and_lock_any_available_gpu now cid gpus).1 = some g
    ∧ (find_and_lock_any_available_gpu now cid gpus).2 = sqlAssign now cid g gpus := by
  obtain ⟨hmem, _⟩ := minStr_spec (availGroups gpus) g hmin
  obtain ⟨r0, hr0, hav0, hg0⟩ := mem_availGroups.mp hmem
  have hcount : 0 < gpus.countP (fun r => r.pueue_group == g) := by
    rw [List.countP_pos_iff]
    exact ⟨r0, hr0, by simpa using hg0⟩
  have hr0img : assignRow now cid r0 ∈ sqlAssign now cid g gpus := by
    simp only [sqlAssign, List.mem_map]
    exact ⟨r0, hr0, by rw [if_pos (by simpa using hg0)]⟩
  have hfind : (sqlAssign now cid g gpus).find?
      (fun r => r.assigned_case_id == some cid) ≠ none := by
    intro hnone
    rw [List.find?_eq_none] at hnone
    exact hnone _ hr0img (by simp [assignRow])
  obtain ⟨r2, hr2⟩ := Option.ne_none_iff_exists.mp hfind
  have hr2mem : r2 ∈ sqlAssign now cid g gpus := List.mem_of_find?_eq_some hr2.symm
  have hr2p : r2.assigned_case_id = some cid := by
    have := List.find?_some hr2.symm
    simpa using this
  have hr2g : r2.pueue_group = g := by
    simp only [sqlAssign, List.mem_map] at hr2mem
    obtain ⟨r, hr, heq⟩ := hr2mem
    by_cases hg : r.pueue_group == g
    · rw [if_pos hg] at heq
      rw [← heq]
      simpa [assignRow] using hg
    · rw [if_neg hg] at heq
      exfalso
      apply hfresh r hr
      rw [heq, hr2p]
  simp only [find_and_lock_any_available_gpu, hmin]
  rw [if_pos hcount, ← hr2]
  exact ⟨by simp [hr2g], rfl⟩

theorem availGroups_sqlAssign {now : Int} {cid : Nat} {g : String} {gpus : List GpuRow} :
    ∀ x ∈ availGroups (sqlAssign now cid g gpus), x ∈ availGroups gpus ∧ x ≠ g := by
  intro x hx
  obtain ⟨r2, hr2, hav2, hg2⟩ := mem_availGroups.mp hx
  obtain ⟨hr2mem, hr2ne⟩ := mem_sqlAssign_of_avail hr2 hav2
  constructor
  · exact mem_availGroups.mpr ⟨r2, hr2mem, hav2, hg2⟩
  · rw [← hg2]; exact hr2ne

/-- Main induction for the exclusive-ownership property: running any
serial order of atomic lock transactions with pairwise distinct, fresh
case ids yields `min N M` successful returns, pairwise distinct group
names, all drawn from the initially available groups. -/
theorem runLocks_spec (now : Int) :
    ∀ (cids : List Nat) (gpus : List GpuRow),
      nodupGroups gpus → cids.Nodup →
      (∀ c ∈ cids, ∀ r ∈ gpus, r.assigned_case_id ≠ some c) →
      ((runLocks now cids gpus).1.countP (fun o => o.isSome)
          = min cids.length (availCount gpus))
      ∧ ((runLocks now cids gpus).1.filterMap id).Nodup
      ∧ (∀ g ∈ (runLocks now cids gpus).1.filterMap id, g ∈ availGroups gpus) := by
  intro cids
  induction cids with
  | nil =>
      intro gpus _ _ _
      simp [runLocks]
  | cons c rest ih =>
      intro gpus hnd hcids hfresh
      have hcrest : c ∉ rest := (List.nodup_cons.mp hcids).1
      have hrestnd : rest.Nodup := (List.nodup_cons.mp hcids).2
      cases hm : minAvailGroup gpus with
      | none =>
          have hlock := @lock_none now c gpus hm
          have hag : availGroups gpus = [] := by
            have := (minStr_eq_none (availGroups gpus)).mp hm
            exact this
          have hac : availCount gpus = 0 := by
            rw [availCount_eq_length, hag]
            rfl
          have hihyp : ∀ d ∈ rest, ∀ r ∈ gpus, r.assigned_case_id ≠ some d := by
            intro d hd
            exact hfresh d (List.mem_cons_of_mem c hd)
          obtain ⟨ihc, ihn, ihs⟩ := ih gpus hnd hrestnd hihyp
          simp only [runLocks, hlock]
          refine ⟨?_, ?_, ?_⟩
          · simp only [List.countP_cons, Option.isSome_none, hac]
            simp [ihc, hac]
          · simpa using ihn
          · intro g hg
            simp only [List.filterMap_cons, id] at hg
            exact ihs g hg
      | some g =>
          have hfreshc : ∀ r ∈ gpus, r.assigned_case_id ≠ some c :=
            hfresh c (List.mem_cons_self c rest)
          obtain ⟨hl1, hl2⟩ := @lock_some now c g gpus hfreshc hm
          obtain ⟨hgmem, _⟩ := minStr_spec (availGroups gpus) g hm
          have hgrow := mem_availGroups.mp hgmem
          have hnd2 : nodupGroups (sqlAssign now c g gpus) := by
            unfold nodupGroups
            rw [groupsOf_sqlAssign]
            exact hnd
          have hfresh2 : ∀ d ∈ rest, ∀ r2 ∈ sqlAssign now c g gpus,
              r2.assigned_case_id ≠ some d := by
            intro d hd
            have hdc : d ≠ c := by
              intro h; rw [h] at hd; exact hcrest hd
            exact fresh_sqlAssign
              (hfresh d (List.mem_cons_of_mem c hd)) hdc
          have hcnt : availCount (sqlAssign now c g gpus) + 1 = availCount gpus :=
            availCount_sqlAssign hnd hgrow
          obtain ⟨ihc, ihn, ihs⟩ := ih (sqlAssign now c g gpus) hnd2 hrestnd hfresh2
          simp only [runLocks, hl1, hl2]
          refine ⟨?_, ?_, ?_⟩
          · simp only [List.countP_cons, Option.isSome_some, if_pos]
            rw [ihc]
            have : availCount gpus = availCount (sqlAssign now c g gpus) + 1 := hcnt.symm
            rw [this]
            simp [Nat.succ_min_succ]
          · simp only [List.filterMap_cons, id]
            rw [List.nodup_cons]
            refine ⟨?_, ihn⟩
            intro hgmem2
            have := (availGroups_sqlAssign g (ihs g hgmem2)).2
            exact this rfl
          · intro x hx
            simp only [List.filterMap_cons, id, List.mem_cons] at hx
            rcases hx with hx | hx
            · rw [hx]; exact hgmem
            · exact (availGroups_sqlAssign x (ihs x hx)).1

/-- Splitting `find_and_lock_any_available_gpu` at the statement boundary
between its `UPDATE` and its `rowcount` read is faithful: composing the
two halves back to back, with the `rowcount` produced by the `UPDATE`
still in place, is exactly the sequential method. -/
theorem find_and_lock_eq_steps (now : Int) (cid : Nat) (gpus : List GpuRow) :
    find_and_lock_any_available_gpu now cid gpus
      = (lockStep2 cid (lockStep1 now cid gpus).1 (lockStep1 now cid gpus).2,
         (lockStep1 now cid gpus).2) := by
  cases hm : minAvailGroup gpus with
  | none => simp [find_and_lock_any_available_gpu, lockStep1, lockStep2, hm]
  | some g =>
      simp only [find_and_lock_any_available_gpu, lockStep1, lockStep2, hm]
      by_cases hc : 0 < gpus.countP (fun r => r.pueue_group == g)
      · rw [if_pos hc, if_pos hc]
        cases (sqlAssign now cid g gpus).find?
          (fun r => r.assigned_case_id == some cid) <;> rfl
      · rw [if_neg hc, if_neg hc]

/-- Restricted to non-overlapping calls, the race model coincides with
the sequential method: under the serial schedule a, a, b, b each call
returns what `find_and_lock_any_available_gpu` returns on the table it
sees. -/
theorem runRace_serial (now : Int) (c1 c2 : Nat) (gpus : List GpuRow) :
    (runRace now c1 c2 gpus [ThreadId.a, ThreadId.a, ThreadId.b, ThreadId.b]).aResult
        = some (find_and_lock_any_available_gpu now c1 gpus).1
    ∧ (runRace now c1 c2 gpus [ThreadId.a, ThreadId.a, ThreadId.b, ThreadId.b]).bResult
        = some (find_and_lock_any_available_gpu now c2
            (find_and_lock_any_available_gpu now c1 gpus).2).1
    ∧ (runRace now c1 c2 gpus [ThreadId.a, ThreadId.a, ThreadId.b, ThreadId.b]).table
        = (find_and_lock_any_available_gpu now c2
            (find_and_lock_any_available_gpu now c1 gpus).2).2 := by
  simp only [find_and_lock_eq_steps]
  simp [runRace, raceStep, List.foldl]

/-- Exclusive ownership DOES hold for serialized executions: over every
serial order of calls with pairwise distinct, fresh case ids, successful
returns number `min(N, M)` and no group name repeats.  This is what the
spec demands of the method once the missing mutual exclusion is restored
(supporting evidence that the claim states the intent and the unlocked
implementation is the slip). -/
theorem serial_exclusive_gpu_ownership (now : Int) (cids : List Nat) (gpus : List GpuRow)
    (hnd : nodupGroups gpus) (hdistinct : cids.Nodup)
    (hfresh : ∀ c ∈ cids, ∀ r ∈ gpus, r.assigned_case_id ≠ some c) :
    ((runLocks now cids gpus).1.countP (fun o => o.isSome)
        = min cids.length (availCount gpus))
    ∧ ((runLocks now cids gpus).1.filterMap id).Nodup := by
  obtain ⟨h1, h2, _⟩ := runLocks_spec now cids gpus hnd hdistinct hfresh
  exact ⟨h1, h2⟩

/-- Concrete serial instance: three serialized calls against two
available rows yield exactly two distinct locked groups. -/
theorem serial_exclusive_gpu_ownership_example :
    ((runLocks 1 [1, 2, 3] lockTableW).1.countP (fun o => o.isSome)
        = min (List.length [1, 2, 3]) (availCount lockTableW))
    ∧ ((runLocks 1 [1, 2, 3] lockTableW).1.filterMap id).Nodup :=
  serial_exclusive_gpu_ownership 1 [1, 2, 3] lockTableW
    (by decide) (by decide) (by decide)

/-! ### Claim theorems -/

/-- Claim C1 fails on the code: `find_and_lock_any_available_gpu` takes
neither `self._lock` nor `BEGIN IMMEDIATE` — unlike every other writer,
which goes through `DatabaseManager.transaction` — and runs its two
statements on the one shared cursor of the single `DatabaseManager` that
the `ParallelCaseProcessor` worker threads call concurrently, despite its
own docstring saying "Atomically".  Against one available row (M = 1,
N = 2): the serial schedule a, a, b, b hands the row to call a — one
successful return, `min(2, 1)`, as the claim requires.  But in the
interleaving a, b, a, b — a thread switch between call a's `UPDATE` and
its `rowcount` read — call b's empty `UPDATE` resets the shared
`cursor.rowcount` to 0, BOTH calls return `None`, and the row is left
assigned to case 1 with no caller knowing it: zero successful returns
against `min(2, 1) = 1`, so the for-all-interleavings claim is violated
by the program. -/
theorem C1_lock_race_loses_update :
    ((runRace 1 1 2 c1raceTable [ThreadId.a, ThreadId.a, ThreadId.b, ThreadId.b]).aResult
        = some (some "gpu_a")
      ∧ (runRace 1 1 2 c1raceTable [ThreadId.a, ThreadId.a, ThreadId.b, ThreadId.b]).bResult
        = some none)
    ∧ (runRace 1 1 2 c1raceTable [ThreadId.a, ThreadId.b, ThreadId.a, ThreadId.b]).aResult
        = some none
    ∧ (runRace 1 1 2 c1raceTable [ThreadId.a, ThreadId.b, ThreadId.a, ThreadId.b]).bResult
        = some none
    ∧ (runRace 1 1 2 c1raceTable [ThreadId.a, ThreadId.b, ThreadId.a, ThreadId.b]).table
        = [⟨"gpu_a", "assigned", some 1, 1⟩]
    ∧ min 2 (availCount c1raceTable) = 1 := by
  refine ⟨⟨?_, ?_⟩, ?_, ?_, ?_, ?_⟩ <;> decide

/-- Claim C2, amended: a sequential `find_and_lock_any_available_gpu`
call, PROVIDED NO ROW IS ALREADY ASSIGNED TO THE GIVEN CASE, assigns the
lexicographically first available row to the case and returns that row's
group name; with no available row it returns `none` and mutates nothing.
(The proviso is forced by `C2_counterexample`: the returning `SELECT`
matches rows by `assigned_case_id` alone, so a pre-existing assignment to
the same case can be returned instead of the row just locked.) -/
theorem C2_find_and_lock_sequential (now : Int) (cid : Nat) (gpus : List GpuRow)
    (hnd : nodupGroups gpus)
    (hfresh : ∀ r ∈ gpus, r.assigned_case_id ≠ some cid) :
    (∀ g, minAvailGroup gpus = some g →
        g ∈ availGroups gpus
        ∧ (∀ x ∈ availGroups gpus, strLtB x g = false)
        ∧ (find_and_lock_any_available_gpu now cid gpus).1 = some g
        ∧ (find_and_lock_any_available_gpu now cid gpus).2
            = gpus.map (fun r => if r.pueue_group = g
                then { r with status := "assigned", assigned_case_id := some cid,
                              last_updated := now } else r))
    ∧ (minAvailGroup gpus = none →
        find_and_lock_any_available_gpu now cid gpus = (none, gpus)) := by
  constructor
  · intro g hg
    obtain ⟨hl1, hl2⟩ := @lock_some now cid g gpus hfresh hg
    obtain ⟨hmem, hmin⟩ := minStr_spec (availGroups gpus) g hg
    refine ⟨hmem, hmin, hl1, ?_⟩
    rw [hl2]
    simp only [sqlAssign]
    apply List.map_congr_left
    intro r _
    by_cases h : r.pueue_group = g
    · rw [if_pos h, if_pos (by simpa using h)]
      rfl
    · rw [if_neg h, if_neg (by simpa using h)]
  · intro hg
    exact lock_none hg

/-- Witness for C2: on a table listing gpu_b before gpu_a, the call for a
fresh case locks and returns gpu_a, the lexicographically first available
group. -/
theorem C2_find_and_lock_sequential_witness :
    (find_and_lock_any_available_gpu 1 5 lockTableW).1 = some "gpu_a" :=
  (((C2_find_and_lock_sequential 1 5 lockTableW (by decide) (by decide)).1
    "gpu_a" (by decide)).2.2).1

/-- Counterexample to C2 as stated: with gpu_b (rowid 1) already assigned
to case 7 and gpu_a available, the call for case 7 does lock gpu_a — the
lexicographically first available row — but RETURNS "gpu_b", the
pre-existing assignment found first by the unordered `SELECT ... WHERE
assigned_case_id = ?`. -/
theorem C2_counterexample :
    minAvailGroup lockTableCx = some "gpu_a"
    ∧ (∃ r ∈ lockTableCx, isAvail r = true ∧ r.pueue_group = "gpu_a")
    ∧ (find_and_lock_any_available_gpu 1 7 lockTableCx).1 = some "gpu_b"
    ∧ (find_and_lock_any_available_gpu 1 7 lockTableCx).1 ≠ some "gpu_a" := by
  refine ⟨by decide, ⟨lockTableCx.get ⟨1, by decide⟩, by decide⟩, by decide, by decide⟩

/-- Claim C5: `update_case_completion` with a terminal status sets
progress to 100 and `completed_at`, touches only status, progress,
completed_at and status_updated_at on the matching row, and leaves every
other row — and in particular any previously set `pueue_group`
(gpu_group) and `pueue_task_id` (remote_task_id) — unchanged. -/
theorem C5_completion_preserves_history (now : Int) (cid : Nat) (ts : String)
    (hts : ts = "completed" ∨ ts = "failed") (cases : List CaseRow) :
    ∀ (i : Nat) (c c2 : CaseRow), cases[i]? = some c →
      (update_case_completion now cid ts cases)[i]? = some c2 →
      (c2.pueue_group = c.pueue_group
        ∧ c2.pueue_task_id = c.pueue_task_id
        ∧ c2.case_path = c.case_path
        ∧ c2.case_id = c.case_id
        ∧ c2.priority = c.priority
        ∧ c2.submitted_at = c.submitted_at
        ∧ c2.created_at = c.created_at)
      ∧ (c.case_id = cid →
          c2.status = ts ∧ c2.progress = 100
            ∧ c2.completed_at = some now ∧ c2.status_updated_at = now)
      ∧ (c.case_id ≠ cid → c2 = c) := by
  intro i c c2 h1 h2
  simp only [update_case_completion, List.getElem?_map, h1, Option.map_some] at h2
  have h2' : c2 = (if c.case_id == cid then
      { c with status := ts, progress := 100,
               completed_at := some now, status_updated_at := now } else c) := by
    injection h2 with h
    exact h.symm
  by_cases hc : c.case_id = cid
  · rw [h2', if_pos (by simpa using hc)]
    refine ⟨⟨rfl, rfl, rfl, rfl, rfl, rfl, rfl⟩, fun _ => ⟨rfl, rfl, rfl, rfl⟩, ?_⟩
    intro hne
    exact absurd hc hne
  · rw [h2', if_neg (by simpa using hc)]
    exact ⟨⟨rfl, rfl, rfl, rfl, rfl, rfl, rfl⟩, fun h => absurd h hc, fun _ => rfl⟩

/-- Witness for C5: completing case 7 keeps its gpu_group and remote task
id and sets the terminal fields. -/
theorem C5_completion_preserves_history_witness :
    caseC5out.pueue_group = caseRowW.pueue_group
    ∧ caseC5out.pueue_task_id = caseRowW.pueue_task_id
    ∧ caseC5out.status = "completed" ∧ caseC5out.progress = 100
    ∧ caseC5out.completed_at = some 9 := by
  have hh := C5_completion_preserves_history 9 7 "completed" (Or.inl rfl) casesW
    0 caseRowW caseC5out (by decide) (by decide)
  exact ⟨hh.1.1, hh.1.2.1, (hh.2.1 rfl).1, (hh.2.1 rfl).2.1, (hh.2.1 rfl).2.2.1⟩

/-- Claim C4: in Phase 2, a running case past its timeout whose
`KillTask` fails ends with status `failed` and `completed_at` set, and its
GPU row ends in status `zombie` with `assigned_case_id` equal to the case
id — the row is not released.  `manage_running_case` is the loop body of
`manage_running_cases` applied to one case of the running snapshot. -/
theorem C4_zombie_on_kill_failure (now timeout : Int) (kill : Nat → Bool)
    (poll : Nat → RemoteStatus) (st : DbState) (c : CaseRow) (tid : Nat) (g : String)
    (hc : c ∈ st.cases)
    (hstatus : c.status = "running")
    (htid : c.pueue_task_id = some tid)
    (htimeout : timeout < now - c.status_updated_at)
    (hkill : kill tid = false)
    (hgroup : c.pueue_group = some g)
    (hrow : ∃ r ∈ st.gpus, r.pueue_group = g) :
    (∀ cr ∈ (manage_running_case now timeout kill poll st c).cases,
        cr.case_id = c.case_id → cr.status = "failed" ∧ cr.completed_at = some now)
    ∧ (∃ cr ∈ (manage_running_case now timeout kill poll st c).cases,
        cr.case_id = c.case_id)
    ∧ (∀ gr ∈ (manage_running_case now timeout kill poll st c).gpus,
        gr.pueue_group = g →
          gr.status = "zombie" ∧ gr.assigned_case_id = some c.case_id)
    ∧ (∃ gr ∈ (manage_running_case now timeout kill poll st c).gpus,
        gr.pueue_group = g) := by
  have hred : manage_running_case now timeout kill poll st c =
      { cases := update_case_completion now c.case_id "failed" st.cases,
        gpus := update_gpu_status now g "zombie" (some c.case_id) st.gpus } := by
    simp only [manage_running_case, htid, hkill, hgroup]
    rw [if_pos htimeout]
    simp
  rw [hred]
  refine ⟨?_, ?_, ?_, ?_⟩
  · intro cr hcr hid
    simp only [update_case_completion, List.mem_map] at hcr
    obtain ⟨c0, _, heq⟩ := hcr
    by_cases h0 : c0.case_id = c.case_id
    · rw [if_pos (by simpa using h0)] at heq
      rw [← heq]
      exact ⟨rfl, rfl⟩
    · rw [if_neg (by simpa using h0)] at heq
      rw [heq] at h0
      exact absurd hid h0
  · exact ⟨_, List.mem_map_of_mem _ hc, by simp⟩
  · intro gr hgr hgg
    simp only [update_gpu_status, List.mem_map] at hgr
    obtain ⟨r0, _, heq⟩ := hgr
    by_cases h0 : r0.pueue_group = g
    · rw [if_pos (by simpa using h0)] at heq
      rw [← heq]
      exact ⟨rfl, rfl⟩
    · rw [if_neg (by simpa using h0)] at heq
      rw [heq] at h0
      exact absurd hgg h0
  · obtain ⟨r, hr, hrg⟩ := hrow
    exact ⟨_, List.mem_map_of_mem _ hr, by simp [hrg]⟩

/-- Witness for C4: case 9 (task 42, group gpu_1) times out, the kill stub
returns false, and afterwards the case is failed with `completed_at` set
while gpu_1 is zombie and still assigned to case 9. -/
theorem C4_zombie_on_kill_failure_witness :
    (∀ cr ∈ (manage_running_case 100 10 (fun _ => false) (fun _ => RemoteStatus.running)
        c4state c4case).cases,
        cr.case_id = c4case.case_id → cr.status = "failed" ∧ cr.completed_at = some 100)
    ∧ (∃ cr ∈ (manage_running_case 100 10 (fun _ => false) (fun _ => RemoteStatus.running)
        c4state c4case).cases,
        cr.case_id = c4case.case_id)
    ∧ (∀ gr ∈ (manage_running_case 100 10 (fun _ => false) (fun _ => RemoteStatus.running)
        c4state c4case).gpus,
        gr.pueue_group = "gpu_1" →
          gr.status = "zombie" ∧ gr.assigned_case_id = some c4case.case_id)
    ∧ (∃ gr ∈ (manage_running_case 100 10 (fun _ => false) (fun _ => RemoteStatus.running)
        c4state c4case).gpus,
        gr.pueue_group = "gpu_1") :=
  C4_zombie_on_kill_failure 100 10 (fun _ => false) (fun _ => RemoteStatus.running)
    c4state c4case 42 "gpu_1" (by decide) (by decide) (by decide) (by decide)
    rfl (by decide) ⟨c4state.gpus.get ⟨0, by decide⟩, by decide⟩

/-- Claim C3 fails on the code: `find_task_by_label` maps a transport or
parse failure of the remote query to `("not_found", none)` instead of an
unreachable outcome, so Phase 1 treats an unreachable HPC as evidence of
absence — case 7, stuck in `submitting` with its GPU assigned, is marked
`failed` and its GPU released, while the claim (and the caller's dead
`"unreachable"` branch) requires it to stay in `submitting`. -/
theorem C3_transport_failure_treated_as_absence :
    find_task_by_label StatusQuery.failure "mqic_case_7" = ("not_found", none)
    ∧ (∀ q : StatusQuery, ∀ label : String,
        (find_task_by_label q label).1 ≠ "unreachable")
    ∧ ((recover_stuck_case 5 StatusQuery.failure c3state c3case).cases.map
        (fun c => c.status)) = ["failed"]
    ∧ (recover_stuck_case 5 StatusQuery.failure c3state c3case).gpus
        = [⟨"gpu_0", "available", none, 5⟩] := by
  refine ⟨rfl, ?_, by decide, by decide⟩
  intro q label
  cases q with
  | failure => simp [find_task_by_label]
  | ok tasks =>
      simp only [find_task_by_label]
      cases tasks.find? (fun t => t.2.label == some label) with
      | none => simp
      | some t => simp

/-! ### Lemmas on workflow resumption -/

theorem firstIdxFrom_lt (p : WorkflowStep → Bool) :
    ∀ (l : List WorkflowStep) (i k : Nat), firstIdxFrom p l i = some k →
      k < i + l.length := by
  intro l
  induction l with
  | nil => intro i k h; simp [firstIdxFrom] at h
  | cons s rest ih =>
      intro i k h
      simp only [firstIdxFrom] at h
      by_cases hp : p s = true
      · rw [if_pos hp] at h
        injection h with h
        subst h
        simp
      · rw [if_neg hp] at h
        have := ih (i + 1) k h
        simp only [List.length_cons]
        omega

/-- The dictionary-based recursion of `_determine_starting_step` computes:
first success match (if any), else last failure match (if any), else the
most recent dictionary hit, else 0. -/
theorem dssGo_spec (current : String) (wfLen : Nat) :
    ∀ (rest : List WorkflowStep) (idx : Nat) (dict : List (Option String × Nat)),
      dssGo current wfLen rest idx dict =
        match firstIdxFrom (fun s => s.on_success_status == some current) rest idx with
        | some k => min (k + 1) wfLen
        | none =>
            match lastIdxFrom (fun s => s.on_failure_status == some current) rest idx with
            | some j => j
            | none =>
                match dict.find? (fun p => p.1 == some current) with
                | some p => p.2
                | none => 0 := by
  intro rest
  induction rest with
  | nil =>
      intro idx dict
      simp [dssGo, firstIdxFrom, lastIdxFrom]
  | cons s r ih =>
      intro idx dict
      by_cases hs : (s.on_success_status == some current) = true
      · simp only [dssGo, firstIdxFrom, if_pos hs]
      · simp only [dssGo, firstIdxFrom, lastIdxFrom, if_neg hs, hs]
        rw [ih (idx + 1) ((s.on_failure_status, idx) :: dict)]
        cases firstIdxFrom (fun s => s.on_success_status == some current) r (idx + 1) with
        | some k => rfl
        | none =>
            cases lastIdxFrom (fun s => s.on_failure_status == some current) r (idx + 1) with
            | some j => rfl
            | none =>
                simp only [List.find?]
                by_cases hf : (s.on_failure_status == some current) = true
                · simp [hf]
                · simp [hf]

/-- Claim C6, amended: resumption starts after the LOWEST (first, not
highest) step index whose `on_success_status` matches the current status;
failing that, at the HIGHEST step index whose `on_failure_status` matches;
otherwise at step 0. -/
theorem C6_resumption_rule (wf : List WorkflowStep) (current : String) :
    determine_starting_step wf current =
      match firstSuccIdx wf current with
      | some k => k + 1
      | none =>
          match lastFailIdx wf current with
          | some j => j
          | none => 0 := by
  unfold determine_starting_step firstSuccIdx lastFailIdx
  rw [dssGo_spec]
  cases hk : firstIdxFrom (fun s => s.on_success_status == some current) wf 0 with
  | some k =>
      have hlt := firstIdxFrom_lt _ wf 0 k hk
      show min (k + 1) wf.length = k + 1
      exact min_eq_left (by omega)
  | none =>
      cases lastIdxFrom (fun s => s.on_failure_status == some current) wf 0 with
      | some j => rfl
      | none => rfl

/-- Counterexample to C6 as stated: with two steps sharing on-success
status "S", the code resumes at 1 (after the FIRST matching step), while
the claimed highest-index rule (`spec_starting_step`, modelled from the
spec text) yields 2. -/
theorem C6_counterexample :
    determine_starting_step wfC6 "S" = 1
    ∧ lastSuccIdx wfC6 "S" = some 1
    ∧ spec_starting_step wfC6 "S" = 2
    ∧ determine_starting_step wfC6 "S" ≠ spec_starting_step wfC6 "S" := by
  refine ⟨?_, ?_, ?_, ?_⟩ <;> decide

/-- Claim C7 fails on the code: with retry policy count 1 / delay 60 /
on_error ["network"], a first attempt failing with a network-classified
executor error satisfies the claim's premises (the kind is listed as
retryable and an attempt remains), yet the step neither sleeps nor
regenerates the run id nor retries — it fails after the single attempt.
The cause is `error_category in retry_on_errors`: `categorize_error`
returns the tuple `(category, is_retryable)` and Python equality between
a tuple and a configuration string is always false, so a nonempty
`on_error` list disables retries entirely.  (With an EMPTY `on_error`
list the same failing attempt IS retried, as the last conjunct shows.) -/
theorem C7_configured_kinds_never_retry :
    ErrorCategory.network.value = "network"
    ∧ ErrorCategory.network.is_retryable = true
    ∧ c7cfg.on_error = ["network"]
    ∧ 0 < c7cfg.count
    ∧ execute_workflow_step c7cfg (fun _ => AttemptOutcome.execError ErrorCategory.network)
        = (false, 1, [])
    ∧ execute_workflow_step ⟨1, 60, []⟩
        (fun _ => AttemptOutcome.execError ErrorCategory.network)
        = (false, 2, [StepEvent.sleep 60, StepEvent.regenRunId]) := by
  refine ⟨rfl, rfl, rfl, by decide, by decide, by decide⟩

/-- Claim C8: the poll-status mapping of `get_workflow_status`. -/
theorem C8_poll_status_mapping (tid : Nat) (q : StatusQuery) :
    (q = StatusQuery.failure → get_workflow_status tid q = "unreachable")
    ∧ (∀ tasks : List (String × PueueTaskInfo), q = StatusQuery.ok tasks →
        (tasks.find? (fun t => t.1 == toString tid) = none →
            get_workflow_status tid q = "not_found")
        ∧ (∀ t : String × PueueTaskInfo,
            tasks.find? (fun t => t.1 == toString tid) = some t →
            (t.2.status = some "Done" → t.2.result = some "success" →
                get_workflow_status tid q = "success")
            ∧ (t.2.status = some "Done" → t.2.result ≠ some "success" →
                get_workflow_status tid q = "failure")
            ∧ (t.2.status = some "Failed" ∨ t.2.status = some "Killing" →
                get_workflow_status tid q = "failure")
            ∧ (t.2.status = some "Running" ∨ t.2.status = some "Queued"
                ∨ t.2.status = some "Paused" →
                get_workflow_status tid q = "running"))) := by
  constructor
  · intro h; rw [h]; rfl
  · intro tasks hq
    subst hq
    constructor
    · intro hfind
      simp [get_workflow_status, hfind]
    · intro t hfind
      refine ⟨?_, ?_, ?_, ?_⟩
      · intro hdone hres
        simp [get_workflow_status, hfind, hdone, hres]
      · intro hdone hres
        have hres' : (t.2.result == some "success") = false := by
          simpa using hres
        simp [get_workflow_status, hfind, hdone, hres']
      · intro hst
        rcases hst with h | h <;> simp [get_workflow_status, hfind, h]
      · intro hst
        rcases hst with h | h | h <;> simp [get_workflow_status, hfind, h]

/-- Witness for C8: a transport failure polls as unreachable and a Queued
task polls as running. -/
theorem C8_poll_status_mapping_witness :
    get_workflow_status 5 StatusQuery.failure = "unreachable"
    ∧ get_workflow_status 5 (StatusQuery.ok c8tasks) = "running" := by
  constructor
  · exact (C8_poll_status_mapping 5 StatusQuery.failure).1 rfl
  · have h := ((C8_poll_status_mapping 5 (StatusQuery.ok c8tasks)).2 c8tasks rfl).2
      ("5", ⟨some "Queued", none, none⟩) (by decide)
    exact h.2.2.2 (Or.inr (Or.inl rfl))

/-! ### Lemmas on the GPU choice -/

theorem argminStable_eq_none :
    ∀ l : List (String × ℚ), argminStable l = none ↔ l = [] := by
  intro l
  cases l with
  | nil => simp [argminStable]
  | cons p rest =>
      simp only [argminStable]
      cases argminStable rest with
      | none => simp
      | some q =>
          by_cases h : q.2 < p.2 <;> simp [h]

/-- A stable sort by score followed by taking the head returns the
earliest entry of minimal score: everything before it is strictly larger,
everything after it is no smaller. -/
theorem argminStable_split :
    ∀ (l : List (String × ℚ)) (p : String × ℚ), argminStable l = some p →
      ∃ l₁ l₂, l = l₁ ++ p :: l₂
        ∧ (∀ q ∈ l₁, p.2 < q.2) ∧ (∀ q ∈ l₂, p.2 ≤ q.2) := by
  intro l
  induction l with
  | nil => intro p h; simp [argminStable] at h
  | cons a rest ih =>
      intro p h
      simp only [argminStable] at h
      cases hrest : argminStable rest with
      | none =>
          rw [hrest] at h
          have hre : rest = [] := (argminStable_eq_none rest).mp hrest
          injection h with h
          subst h
          subst hre
          exact ⟨[], [], rfl, by simp, by simp⟩
      | some q =>
          rw [hrest] at h
          have h' : (if q.2 < a.2 then some q else some a) = some p := h
          obtain ⟨r₁, r₂, hsplit, hlt, hle⟩ := ih q hrest
          by_cases hq : q.2 < a.2
          · rw [if_pos hq] at h'
            injection h' with h'
            subst h'
            refine ⟨a :: r₁, r₂, by rw [hsplit]; rfl, ?_, hle⟩
            intro x hx
            rcases List.mem_cons.mp hx with hxa | hxr
            · rw [hxa]; exact hq
            · exact hlt x hxr
          · rw [if_neg hq] at h'
            injection h' with h'
            subst h'
            refine ⟨[], rest, rfl, by simp, ?_⟩
            intro x hx
            have hpq : a.2 ≤ q.2 := le_of_not_lt hq
            rw [hsplit] at hx
            rcases List.mem_append.mp hx with hx1 | hx2
            · exact le_of_lt (lt_of_le_of_lt hpq (hlt x hx1))
            · rcases List.mem_cons.mp hx2 with hxq | hxr
              · rw [hxq]; exact hpq
              · exact le_trans hpq (hle x hxr)

theorem mem_gpuCandidates {pueue : List (String × PueueGroupStats)}
    {hw : List (Nat × HwStats)} {g2i : List (String × List Nat)} {db : List GpuRow}
    {g : String} {s : ℚ} :
    (g, s) ∈ gpuCandidates pueue hw g2i db ↔
      ∃ stats : PueueGroupStats, (g, stats) ∈ pueue
        ∧ gpuQualifies db hw g2i g stats = true
        ∧ s = gpuScore hw g2i g stats := by
  simp only [gpuCandidates, List.mem_filterMap]
  constructor
  · rintro ⟨a, ha, hfa⟩
    by_cases hq : gpuQualifies db hw g2i a.1 a.2 = true
    · rw [if_pos hq] at hfa
      simp only [Option.some.injEq, Prod.mk.injEq] at hfa
      obtain ⟨h1, h2⟩ := hfa
      refine ⟨a.2, ?_, ?_, ?_⟩
      · rw [← h1]; simpa using ha
      · rw [← h1]; exact hq
      · rw [← h1, ← h2]
    · rw [if_neg hq] at hfa
      exact absurd hfa (by simp)
  · rintro ⟨stats, hmem, hq, hs⟩
    exact ⟨(g, stats), hmem, by rw [if_pos hq, hs]⟩

/-- Claim C9, amended: `get_optimal_gpu_assignment` considers exactly the
groups that are available in the store, have no running pueue job, and no
hardware-busy mapped index; it returns the qualifying group with the
lowest composite score, with ties broken by POSITION IN THE REMOTE QUEUE
LISTING (the first-listed minimal-score group wins — Python stable sort),
not by lexicographic group name; it returns `none` when no group
qualifies. -/
theorem C9_optimal_assignment (pueue : List (String × PueueGroupStats))
    (hw : List (Nat × HwStats)) (g2i : List (String × List Nat)) (db : List GpuRow) :
    (get_optimal_gpu_assignment pueue hw g2i db = none →
        ∀ p ∈ pueue, gpuQualifies db hw g2i p.1 p.2 = false)
    ∧ (∀ g : String, get_optimal_gpu_assignment pueue hw g2i db = some g →
        ∃ (stats : PueueGroupStats) (s : ℚ)
          (l₁ l₂ : List (String × ℚ)),
          (g, stats) ∈ pueue
          ∧ gpuQualifies db hw g2i g stats = true
          ∧ s = gpuScore hw g2i g stats
          ∧ gpuCandidates pueue hw g2i db = l₁ ++ (g, s) :: l₂
          ∧ (∀ q ∈ l₁, s < q.2)
          ∧ (∀ q ∈ l₂, s ≤ q.2)) := by
  constructor
  · intro hnone p hp
    have hmap : argminStable (gpuCandidates pueue hw g2i db) = none := by
      simpa [get_optimal_gpu_assignment] using hnone
    have hnil : gpuCandidates pueue hw g2i db = [] :=
      (argminStable_eq_none _).mp hmap
    by_cases hq : gpuQualifies db hw g2i p.1 p.2 = true
    · exfalso
      have : (p.1, gpuScore hw g2i p.1 p.2) ∈ gpuCandidates pueue hw g2i db :=
        mem_gpuCandidates.mpr ⟨p.2, by simpa using hp, hq, rfl⟩
      rw [hnil] at this
      simp at this
    · simpa using hq
  · intro g hsome
    have hmap : ∃ pr, argminStable (gpuCandidates pueue hw g2i db) = some pr
        ∧ pr.1 = g := by
      simpa [get_optimal_gpu_assignment, Option.map_eq_some] using hsome
    obtain ⟨pr, hpr, hprg⟩ := hmap
    obtain ⟨l₁, l₂, hsplit, hlt, hle⟩ := argminStable_split _ pr hpr
    have hmem : pr ∈ gpuCandidates pueue hw g2i db := by
      rw [hsplit]
      simp
    have hpr2 : (g, pr.2) ∈ gpuCandidates pueue hw g2i db := by
      rw [← hprg]
      simpa using hmem
    obtain ⟨stats, hst, hq, hs⟩ := mem_gpuCandidates.mp hpr2
    refine ⟨stats, pr.2, l₁, l₂, hst, hq, hs, ?_, hlt, hle⟩
    rw [hsplit, ← hprg]

/-- Witness for C9: with gpu_2 busy in the store, the only qualifying
group gpu_1 is selected, qualifies, and carries the minimal score. -/
theorem C9_optimal_assignment_witness :
    ∃ (stats : PueueGroupStats) (s : ℚ) (l₁ l₂ : List (String × ℚ)),
      ("gpu_1", stats) ∈ c9pueue
      ∧ gpuQualifies c9dbW [] c9g2i "gpu_1" stats = true
      ∧ s = gpuScore [] c9g2i "gpu_1" stats
      ∧ gpuCandidates c9pueue [] c9g2i c9dbW = l₁ ++ ("gpu_1", s) :: l₂
      ∧ (∀ q ∈ l₁, s < q.2)
      ∧ (∀ q ∈ l₂, s ≤ q.2) :=
  (C9_optimal_assignment c9pueue [] c9g2i c9dbW).2 "gpu_1" (by
    simp [get_optimal_gpu_assignment, gpuCandidates, gpuQualifies, gpuScore,
      argminStable, dbFind, indicesOf, hwFind, PueueGroupStats.total_load,
      c9pueue, c9g2i, c9dbW, List.find?, List.filterMap])

/-- Counterexample to C9's tie-break as stated: gpu_1 and gpu_2 both
qualify with equal scores and gpu_1 is lexicographically first, yet the
code returns gpu_2 because it is listed first by the remote queue and
Python's stable sort keeps it in front. -/
theorem C9_counterexample :
    get_optimal_gpu_assignment c9pueue [] c9g2i c9db = some "gpu_2"
    ∧ get_optimal_gpu_assignment c9pueue [] c9g2i c9db ≠ some "gpu_1"
    ∧ gpuQualifies c9db [] c9g2i "gpu_1" ⟨0, 0⟩ = true
    ∧ gpuQualifies c9db [] c9g2i "gpu_2" ⟨0, 0⟩ = true
    ∧ gpuScore [] c9g2i "gpu_1" ⟨0, 0⟩ = gpuScore [] c9g2i "gpu_2" ⟨0, 0⟩
    ∧ strLtB "gpu_1" "gpu_2" = true := by
  refine ⟨?_, ?_, by decide, by decide, ?_, by decide⟩
  · simp [get_optimal_gpu_assignment, gpuCandidates, gpuQualifies, gpuScore,
      argminStable, dbFind, indicesOf, hwFind, PueueGroupStats.total_load,
      c9pueue, c9g2i, c9db, List.find?, List.filterMap]
  · simp [get_optimal_gpu_assignment, gpuCandidates, gpuQualifies, gpuScore,
      argminStable, dbFind, indicesOf, hwFind, PueueGroupStats.total_load,
      c9pueue, c9g2i, c9db, List.find?, List.filterMap]
  · norm_num [gpuScore, indicesOf, hwFind, PueueGroupStats.total_load,
      c9g2i, List.find?]

/-- Claim C10: `get_success_rate` is total over every sequence of
recorded batch outcomes — it returns 0 when `total_cases_processed` is 0,
and otherwise the division is by a nonzero total and the rate satisfies
`rate * total = successful * 100`, i.e. it equals
`successful_submissions / total_cases_processed * 100`. -/
theorem C10_success_rate_total (batches : List (List Bool)) :
    ((batches.foldl recordBatch ProcessingMetrics.init).total_cases_processed = 0 →
        get_success_rate (batches.foldl recordBatch ProcessingMetrics.init) = 0)
    ∧ ((batches.foldl recordBatch ProcessingMetrics.init).total_cases_processed ≠ 0 →
        get_success_rate (batches.foldl recordBatch ProcessingMetrics.init)
            * ((batches.foldl recordBatch ProcessingMetrics.init).total_cases_processed : ℚ)
          = ((batches.foldl recordBatch ProcessingMetrics.init).successful_submissions : ℚ)
            * 100) := by
  constructor
  · intro h
    simp [get_success_rate, h]
  · intro h
    have hne : ((batches.foldl recordBatch
        ProcessingMetrics.init).total_cases_processed : ℚ) ≠ 0 := by
      exact_mod_cast h
    rw [get_success_rate, if_neg h]
    field_simp

/-- Witness for C10: one batch with one success and one failure yields a
rate of 50 percent (rate times total 2 equals 1 times 100). -/
theorem C10_success_rate_total_witness :
    get_success_rate ([[true, false]].foldl recordBatch ProcessingMetrics.init)
        * (([[true, false]].foldl recordBatch
            ProcessingMetrics.init).total_cases_processed : ℚ)
      = (([[true, false]].foldl recordBatch
            ProcessingMetrics.init).successful_submissions : ℚ) * 100 :=
  (C10_success_rate_total [[true, false]]).2 (by decide)

end MQI
